import Mathlib

/-!
Verification development for the filesystem-backed job queue in
`internal/jobqueue/fsjobqueue/fsjobqueue.go`.

The Go code is embedded shallowly:

* `uuid.UUID` (16 bytes) becomes a list of naturals (`UUID`);
* `time.Time` becomes a natural number, with `0` playing the role of Go's
  zero time (`IsZero`);
* the `jsondb` store (whose source is not part of this tree) is modelled
  from the spec as an association list of job records, see `Store`;
* a Go channel of capacity 100 becomes a list of ids (front = next value
  to be received); a send to a full channel with nobody receiving blocks,
  which the embedding reports as the outcome `QErr.wouldBlock`;
* `json.Marshal`/`json.Unmarshal` of the opaque `args`/`result` payloads
  are modelled as the identity on an opaque string (their failure modes
  are not the subject of any claim);
* a failing `db.Write` is modelled by the explicit `writeOk : Bool`
  parameter of the mutating operations.
-/

namespace FsJobQueue

/-- A 128-bit job id, modelled as its list of bytes. -/
abbrev UUID := List Nat

/-- The on-disk job struct (`job` in fsjobqueue.go): id, type, args,
dependencies, result and the three lifecycle timestamps.  Timestamps are
naturals; `0` is Go's zero time. -/
structure Job where
  id : UUID
  jobType : String
  args : String
  dependencies : List UUID
  result : Option String
  queuedAt : Nat
  startedAt : Nat
  finishedAt : Nat
deriving DecidableEq

/-- Modelled from the spec: the `jsondb` package (persistent record store,
spec section 4.1) is a key to document mapping with atomic per-record
`Write`, `Read` returning found/not-found, and `List` of the present keys.
It is modelled as the list of stored records, keyed by `Job.id`; the list
order stands for the unspecified directory-listing order of `List()`. -/
abbrev Store := List Job

/-- `db.Read`: the record stored under `id`, if any. -/
def storeRead : Store → UUID → Option Job
  | [], _ => none
  | r :: rest, id => if r.id = id then some r else storeRead rest id

/-- `db.Write`: replace the record stored under `j.id`, or create it. -/
def storeWrite : Store → Job → Store
  | [], j => [j]
  | r :: rest, j => if r.id = j.id then j :: rest else r :: storeWrite rest j

/-- Capacity of each per-type pending channel (`make(chan uuid.UUID, 100)`). -/
def chanCap : Nat := 100

/-- Contents of the pending channel for a job type.  A type that has no
channel yet is identified with an empty channel: `pendingChannel` creates
channels on demand and a freshly created channel is empty. -/
def lookupChan : List (String × List UUID) → String → List UUID
  | [], _ => []
  | e :: rest, t => if e.1 = t then e.2 else lookupChan rest t

/-- Replace the contents of the pending channel for a job type. -/
def setChan : List (String × List UUID) → String → List UUID → List (String × List UUID)
  | [], t, l => [(t, l)]
  | e :: rest, t, l => if e.1 = t then (t, l) :: rest else e :: setChan rest t l

/-- A channel send `q.pendingChannel(t) <- id`: appends when the channel
has room, and blocks (`none`) when it already holds `chanCap` ids and no
receiver is draining it. -/
def pushChan (p : List (String × List UUID)) (t : String) (id : UUID) :
    Option (List (String × List UUID)) :=
  if (lookupChan p t).length < chanCap then
    some (setChan p t (lookupChan p t ++ [id]))
  else
    none

/-- The dependants recorded for a job id (`q.dependants[id]`). -/
def lookupDeps : List (UUID × List UUID) → UUID → List UUID
  | [], _ => []
  | e :: rest, id => if e.1 = id then e.2 else lookupDeps rest id

/-- Replace the dependant list recorded for a job id. -/
def setDeps : List (UUID × List UUID) → UUID → List UUID → List (UUID × List UUID)
  | [], id, l => [(id, l)]
  | e :: rest, id, l => if e.1 = id then (id, l) :: rest else e :: setDeps rest id l

/-- `q.dependants[dep] = append(q.dependants[dep], id)`. -/
def addDependant (d : List (UUID × List UUID)) (dep id : UUID) :
    List (UUID × List UUID) :=
  setDeps d dep (lookupDeps d dep ++ [id])

/-- `delete(q.dependants, id)`. -/
def removeDependants (d : List (UUID × List UUID)) (id : UUID) :
    List (UUID × List UUID) :=
  d.filter (fun e => decide (e.1 ≠ id))

/-- Outcomes of queue operations.  `notExist` is `jobqueue.ErrNotExist`
(the spec's UnknownJob, and also its UnknownDependency: the code returns
the same error for a missing dependency record); `notRunning` is
`jobqueue.ErrNotRunning`; `storage` is a failed store write (the spec's
StorageFailure); `wouldBlock` marks a channel send that blocks because the
channel is at capacity with no receiver, or a receive with nothing to
receive. -/
inductive QErr where
  | notExist
  | notRunning
  | storage
  | wouldBlock
deriving DecidableEq

/-- The in-memory queue state (`fsJobQueue`): the persistent store, the
per-type pending channels, and the dependant index. -/
structure QState where
  db : Store
  pending : List (String × List UUID)
  dependants : List (UUID × List UUID)
deriving DecidableEq

/-- `readJob`: read the record for `id`, `ErrNotExist` when absent. -/
def readJob (db : Store) (id : UUID) : Except QErr Job :=
  match storeRead db id with
  | some j => .ok j
  | none => .error .notExist

/-- `countFinishedJobs`: the number of records in `ids` whose
`finished_at` is set; fails at the first id with no record. -/
def countFinishedJobs (db : Store) : List UUID → Except QErr Nat
  | [] => .ok 0
  | id :: ids =>
    match readJob db id with
    | .error e => .error e
    | .ok j =>
      match countFinishedJobs db ids with
      | .error e => .error e
      | .ok n => .ok (if j.finishedAt ≠ 0 then n + 1 else n)

/-- The comparison closure handed to `sort.Slice` in `uniqueUUIDList`:
it scans the 16 bytes and returns true as soon as some byte of `a` is
smaller than the corresponding byte of `b`; a greater byte does not stop
the scan, so the function answers true whenever any byte position is
smaller. -/
def goLess (a b : UUID) : Bool :=
  (a.zip b).any (fun p => p.1 < p.2)

/-- One outer step of insertion sort: sift the new element `x` left
through the already-processed prefix (held in reverse) while the
comparison says `x` is less than its left neighbour. -/
def insertSift (less : UUID → UUID → Bool) (x : UUID) :
    List UUID → List UUID
  | [] => [x]
  | e :: rest => if less x e then e :: insertSift less x rest else x :: e :: rest

/-- `sort.Slice` as the Go sort library executes it on slices of fewer
than seven elements: a plain insertion sort driven by the supplied
comparison (the shell-sort prefix pass of the library is a no-op below
seven elements and the quicksort branch needs more than twelve). -/
def goSort (less : UUID → UUID → Bool) (l : List UUID) : List UUID :=
  (l.foldl (fun acc x => insertSift less x acc) []).reverse

/-- The map-based deduplication in `uniqueUUIDList`.  Go iterates the map
in an unspecified, randomized order; the embedding fixes one admissible
iteration order, first insertion. -/
def dedupFirst (l : List UUID) : List UUID :=
  l.foldl (fun acc x => if x ∈ acc then acc else acc ++ [x]) []

/-- `uniqueUUIDList`: deduplicate through a map, then `sort.Slice` with
the byte-scanning comparison `goLess`. -/
def uniqueUUIDList (ids : List UUID) : List UUID :=
  goSort goLess (dedupFirst ids)

/-- `Enqueue`: build the record with deduplicated dependencies, count the
finished dependencies (verifying each exists), persist the record, then
either publish the id to its type's channel (all dependencies finished)
or register it as a dependant of each dependency.  The fresh `uuid.New()`
is the parameter `newId`; `now` is the wall clock; `writeOk` tells whether
the store write succeeds. -/
def enqueue (st : QState) (newId : UUID) (jobType : String) (args : String)
    (dependencies : List UUID) (now : Nat) (writeOk : Bool) :
    Except QErr UUID × QState :=
  let j : Job :=
    { id := newId, jobType := jobType, args := args,
      dependencies := uniqueUUIDList dependencies,
      result := none, queuedAt := now, startedAt := 0, finishedAt := 0 }
  match countFinishedJobs st.db j.dependencies with
  | .error e => (.error e, st)
  | .ok finished =>
    if writeOk then
      let st1 : QState := { st with db := storeWrite st.db j }
      if finished = j.dependencies.length then
        match pushChan st1.pending j.jobType j.id with
        | some p => (.ok j.id, { st1 with pending := p })
        | none => (.error .wouldBlock, st1)
      else
        (.ok j.id,
         { st1 with
             dependants :=
               j.dependencies.foldl (fun d dep => addDependant d dep j.id)
                 st1.dependants })
    else
      (.error .storage, st)

/-- `Dequeue`: wait on the channels of the accepted types, pop an id
(removing it from its channel), read its record, stamp `started_at` and
persist.  `reflect.Select` picks among the ready channels in an
unspecified way; the embedding resolves the choice as the first accepted
type whose channel is non-empty.  When no channel has a value the call
blocks (`wouldBlock`).  The id stays removed from its channel even when
the subsequent read or write fails. -/
def dequeue (st : QState) (jobTypes : List String) (now : Nat)
    (writeOk : Bool) : Except QErr UUID × QState :=
  match jobTypes.find? (fun t => !(lookupChan st.pending t).isEmpty) with
  | none => (.error .wouldBlock, st)
  | some t =>
    match lookupChan st.pending t with
    | [] => (.error .wouldBlock, st)
    | id :: rest =>
      let st1 : QState := { st with pending := setChan st.pending t rest }
      match readJob st1.db id with
      | .error e => (.error e, st1)
      | .ok j =>
        if writeOk then
          (.ok id, { st1 with db := storeWrite st1.db { j with startedAt := now } })
        else
          (.error .storage, st1)

/-- The dependant-release loop of `FinishJob`: for each recorded
dependant, read its record, count its finished dependencies, and publish
it to its type's channel when all are finished.  A mid-loop failure keeps
the sends already performed. -/
def releaseDependants (db : Store) :
    List UUID → List (String × List UUID) →
    Except QErr Unit × List (String × List UUID)
  | [], pending => (.ok (), pending)
  | depid :: rest, pending =>
    match readJob db depid with
    | .error e => (.error e, pending)
    | .ok dep =>
      match countFinishedJobs db dep.dependencies with
      | .error e => (.error e, pending)
      | .ok n =>
        if n = dep.dependencies.length then
          match pushChan pending dep.jobType dep.id with
          | some p => releaseDependants db rest p
          | none => (.error .wouldBlock, pending)
        else
          releaseDependants db rest pending

/-- `FinishJob`: read the record, reject when it is not running, stamp
`finished_at` with the result and persist, then release the dependants
and drop the dependant entry.  The entry is only dropped after the whole
release loop succeeds. -/
def finishJob (st : QState) (id : UUID) (result : String) (now : Nat)
    (writeOk : Bool) : Except QErr Unit × QState :=
  match readJob st.db id with
  | .error e => (.error e, st)
  | .ok j =>
    if j.startedAt = 0 ∨ j.finishedAt ≠ 0 then
      (.error .notRunning, st)
    else
      if writeOk then
        let j1 : Job := { j with finishedAt := now, result := some result }
        let db1 := storeWrite st.db j1
        match releaseDependants db1 (lookupDeps st.dependants id) st.pending with
        | (.error e, p) => (.error e, { st with db := db1, pending := p })
        | (.ok _, p) =>
          (.ok (),
           { st with
               db := db1,
               pending := p,
               dependants := removeDependants st.dependants id })
      else
        (.error .storage, st)

/-- `JobStatus`: read the record and return the three timestamps. -/
def jobStatus (st : QState) (id : UUID) : Except QErr (Nat × Nat × Nat) :=
  match readJob st.db id with
  | .error e => .error e
  | .ok j => .ok (j.queuedAt, j.startedAt, j.finishedAt)

/-- The per-id loop of `New`: read each listed record, skip it when its
`started_at` is zero (this is what line 88 of the source does), and
otherwise publish it when all its dependencies are finished or register
it as a dependant.  A send to a full channel blocks forever, since no
consumer can exist while `New` runs. -/
def newQueueGo (db : Store) : List UUID → QState → Except QErr QState
  | [], st => .ok st
  | id :: rest, st =>
    match readJob db id with
    | .error e => .error e
    | .ok j =>
      if j.startedAt = 0 then
        newQueueGo db rest st
      else
        match countFinishedJobs db j.dependencies with
        | .error e => .error e
        | .ok n =>
          if n = j.dependencies.length then
            match pushChan st.pending j.jobType j.id with
            | some p => newQueueGo db rest { st with pending := p }
            | none => .error .wouldBlock
          else
            newQueueGo db rest
              { st with
                  dependants :=
                    j.dependencies.foldl (fun d dep => addDependant d dep j.id)
                      st.dependants }

/-- `New`: start from empty indices over the persisted records and run
the recovery loop over the listed ids. -/
def newQueue (records : Store) : Except QErr QState :=
  newQueueGo records (records.map Job.id)
    { db := records, pending := [], dependants := [] }

/-- Repeatedly `Dequeue` a single accepted type with succeeding writes,
collecting the returned ids; used to state the FIFO contract. -/
def dequeueSeq (st : QState) (t : String) (now : Nat) : Nat → List UUID
  | 0 => []
  | n + 1 =>
    match dequeue st [t] now true with
    | (.ok id, st1) => id :: dequeueSeq st1 t now n
    | _ => []

instance {ε α : Type} [DecidableEq ε] [DecidableEq α] :
    DecidableEq (Except ε α) := fun a b =>
  match a, b with
  | .ok x, .ok y => decidable_of_iff (x = y) (by simp)
  | .error x, .error y => decidable_of_iff (x = y) (by simp)
  | .ok _, .error _ => .isFalse (fun h => by cases h)
  | .error _, .ok _ => .isFalse (fun h => by cases h)

/-! Concrete scenario data used by the claim theorems, their witnesses and
counterexamples. -/

/-- A fresh queue over an empty directory. -/
def emptyQ : QState := { db := [], pending := [], dependants := [] }

/-- A concrete job id. -/
def idA : UUID := [0, 0, 0, 0, 0, 0, 0, 0, 0, 0, 0, 0, 0, 0, 0, 1]

/-- Another concrete job id. -/
def idB : UUID := [0, 0, 0, 0, 0, 0, 0, 0, 0, 0, 0, 0, 0, 0, 0, 2]

/-- A job id with no persisted record (the all-zero uuid of scenario S3). -/
def idZero : UUID := [0, 0, 0, 0, 0, 0, 0, 0, 0, 0, 0, 0, 0, 0, 0, 0]

/-- The record of a job of type "build" that was enqueued with no
dependencies and never dispatched: started_at and finished_at unset. -/
def jobA : Job :=
  { id := idA, jobType := "build", args := "null", dependencies := [],
    result := none, queuedAt := 1, startedAt := 0, finishedAt := 0 }

/-- The queue state after Enqueue of job A on a fresh queue. -/
def stA : QState := (enqueue emptyQ idA "build" "null" [] 1 true).2

/-- The queue state after Enqueue of A and a successful Dequeue of A. -/
def stADequeued : QState := (dequeue stA ["build"] 2 true).2

/-- Job ids for the fan-out scenarios with more than `chanCap` jobs. -/
def fanId (k : Nat) : UUID := [2, k]

/-- A persisted record of a dispatched (started, unfinished) job of type
"t" with no dependencies; recovery publishes such records. -/
def fanRec (k : Nat) : Job :=
  { id := fanId k, jobType := "t", args := "null", dependencies := [],
    result := none, queuedAt := 1, startedAt := 2, finishedAt := 0 }

/-- A store holding 101 records that recovery publishes to the same
pending channel, one more than the channel capacity. -/
def fanStore : Store := (List.range 101).map fanRec

/-- The queue state after enqueueing A and then 101 jobs of type "t"
that all depend on A, and then dequeuing A: finishing A must now release
101 dependants into the capacity-100 channel for "t". -/
def fanOutSt : QState :=
  let st1 := (enqueue emptyQ idA "build" "null" [] 1 true).2
  let st2 := (List.range 101).foldl
    (fun st k => (enqueue st (fanId k) "t" "null" [idA] 1 true).2) st1
  (dequeue st2 ["build"] 2 true).2

/-- A small state used as a witness: A dispatched, one job of type "t"
waiting on A. -/
def smallFinishSt : QState :=
  let st1 := (enqueue emptyQ idA "build" "null" [] 1 true).2
  let st2 := (enqueue st1 idB "t" "null" [idA] 1 true).2
  (dequeue st2 ["build"] 2 true).2

/-- The two ids of the C3 counterexample: u has a greater zeroth byte
than v, v has a greater first byte than u, so the comparison closure of
uniqueUUIDList answers true in both directions. -/
def uuidU : UUID := [1, 0, 0, 0, 0, 0, 0, 0, 0, 0, 0, 0, 0, 0, 0, 0]

/-- See uuidU. -/
def uuidV : UUID := [0, 1, 0, 0, 0, 0, 0, 0, 0, 0, 0, 0, 0, 0, 0, 0]

/-- The coalescing scenario: A of type "a" enqueued on a fresh queue. -/
def c9StA : QState := (enqueue emptyQ idA "a" "null" [] 1 true).2

/-- The coalescing scenario after B of type "b" is enqueued with the
duplicated dependency list [A, A, A]. -/
def c9StB : QState := (enqueue c9StA idB "b" "null" [idA, idA, idA] 2 true).2

/-- The coalescing scenario after A is dequeued. -/
def c9StC : QState := (dequeue c9StB ["a"] 3 true).2

/-- Two jobs of the same type enqueued in order A then B, for the FIFO
witness. -/
def stFifo : QState :=
  (enqueue (enqueue emptyQ idA "t" "null" [] 1 true).2 idB "t" "null" []
    1 true).2

/-! Basic lemmas about the store and the channel maps. -/

theorem lookupChan_setChan_self (p : List (String × List UUID)) (t : String)
    (l : List UUID) : lookupChan (setChan p t l) t = l := by
  induction p with
  | nil => simp [setChan, lookupChan]
  | cons e rest ih =>
    by_cases h : e.1 = t
    · simp [setChan, lookupChan, h]
    · simp [setChan, lookupChan, h, ih]

theorem lookupChan_setChan_other (p : List (String × List UUID))
    (t t' : String) (l : List UUID) (h : t' ≠ t) :
    lookupChan (setChan p t l) t' = lookupChan p t' := by
  have h2 : ¬ t = t' := fun hc => h hc.symm
  induction p with
  | nil => simp [setChan, lookupChan, h2]
  | cons e rest ih =>
    by_cases he : e.1 = t
    · have he' : ¬ e.1 = t' := fun hc => h2 (he ▸ hc)
      simp [setChan, lookupChan, he, he', h2]
    · simp only [setChan, he, if_neg he]
      by_cases he' : e.1 = t'
      · simp [lookupChan, he']
      · simp [lookupChan, he', ih]

theorem pushChan_some (p p' : List (String × List UUID)) (t : String)
    (id : UUID) (h : pushChan p t id = some p') :
    lookupChan p' t = lookupChan p t ++ [id] ∧
      (lookupChan p t).length < chanCap ∧
      ∀ t', t' ≠ t → lookupChan p' t' = lookupChan p t' := by
  unfold pushChan at h
  by_cases hlen : (lookupChan p t).length < chanCap
  · simp only [hlen, if_true, Option.some.injEq] at h
    subst h
    exact ⟨lookupChan_setChan_self .., hlen,
      fun t' ht' => lookupChan_setChan_other _ _ _ _ ht'⟩
  · simp [hlen] at h

theorem pushChan_of_lt (p : List (String × List UUID)) (t : String)
    (id : UUID) (h : (lookupChan p t).length < chanCap) :
    pushChan p t id = some (setChan p t (lookupChan p t ++ [id])) := by
  simp [pushChan, h]

theorem storeRead_storeWrite (db : Store) (j : Job) (x : UUID) :
    storeRead (storeWrite db j) x =
      if x = j.id then some j else storeRead db x := by
  induction db with
  | nil =>
    simp only [storeWrite, storeRead]
    by_cases h : x = j.id
    · rw [if_pos h.symm, if_pos h]
    · rw [if_neg (fun hc : j.id = x => h hc.symm), if_neg h]
  | cons r rest ih =>
    simp only [storeWrite]
    by_cases hr : r.id = j.id
    · rw [if_pos hr]
      simp only [storeRead]
      by_cases hx : x = j.id
      · rw [if_pos hx.symm, if_pos hx]
      · rw [if_neg (fun hc : j.id = x => hx hc.symm), if_neg hx,
          if_neg (show ¬ r.id = x from fun hc => hx (hc.symm.trans hr))]
    · rw [if_neg hr]
      simp only [storeRead]
      by_cases hrx : r.id = x
      · have hx : ¬ x = j.id := fun hc => hr (by rw [hrx, hc])
        rw [if_pos hrx, if_neg hx, if_pos hrx]
      · rw [if_neg hrx, ih]
        by_cases hx : x = j.id
        · rw [if_pos hx, if_pos hx]
        · rw [if_neg hx, if_neg hx, if_neg hrx]

theorem storeRead_id (db : Store) (x : UUID) (j : Job)
    (h : storeRead db x = some j) : j.id = x := by
  induction db with
  | nil => simp [storeRead] at h
  | cons r rest ih =>
    by_cases hr : r.id = x
    · simp [storeRead, hr] at h
      cases h
      exact hr
    · simp [storeRead, hr] at h
      exact ih h

theorem readJob_error (db : Store) (id : UUID) (e : QErr)
    (h : readJob db id = .error e) : e = .notExist := by
  unfold readJob at h
  cases hr : storeRead db id <;> simp [hr] at h
  exact h.symm

theorem countFinishedJobs_error (db : Store) (l : List UUID) (e : QErr)
    (h : countFinishedJobs db l = .error e) : e = .notExist := by
  induction l with
  | nil => simp [countFinishedJobs] at h
  | cons id rest ih =>
    unfold countFinishedJobs at h
    cases hr : readJob db id with
    | error e' =>
      simp [hr] at h
      exact h.symm.trans (readJob_error db id e' hr)
    | ok j =>
      simp [hr] at h
      cases hc : countFinishedJobs db rest with
      | error e' =>
        simp [hc] at h
        subst h
        exact ih hc
      | ok n => simp [hc] at h

theorem countFinishedJobs_error_of_missing (db : Store) (l : List UUID)
    (d : UUID) (hd : d ∈ l) (hm : storeRead db d = none) :
    countFinishedJobs db l = .error .notExist := by
  induction l with
  | nil => cases hd
  | cons id rest ih =>
    unfold countFinishedJobs
    rcases List.mem_cons.mp hd with heq | htl
    · subst heq
      simp [readJob, hm]
    · cases hr : readJob db id with
      | error e => simp [readJob_error db id e hr]
      | ok j => simp [ih htl]

/-! Deduplication and the sorting pass. -/

theorem mem_dedupFirst_aux (a : UUID) :
    ∀ (l acc : List UUID), a ∈ acc ∨ a ∈ l →
      a ∈ l.foldl (fun acc x => if x ∈ acc then acc else acc ++ [x]) acc := by
  intro l
  induction l with
  | nil =>
    intro acc h
    rcases h with h | h
    · exact h
    · cases h
  | cons x xs ih =>
    intro acc h
    simp only [List.foldl_cons]
    apply ih
    by_cases hx : x ∈ acc
    · rw [if_pos hx]
      rcases h with h | h
      · exact Or.inl h
      · rcases List.mem_cons.mp h with rfl | h
        · exact Or.inl hx
        · exact Or.inr h
    · rw [if_neg hx]
      rcases h with h | h
      · exact Or.inl (List.mem_append_left _ h)
      · rcases List.mem_cons.mp h with rfl | h
        · exact Or.inl (List.mem_append_right _ (List.mem_singleton.mpr rfl))
        · exact Or.inr h

theorem mem_dedupFirst (a : UUID) (l : List UUID) (h : a ∈ l) :
    a ∈ dedupFirst l :=
  mem_dedupFirst_aux a l [] (Or.inr h)

theorem insertSift_perm (less : UUID → UUID → Bool) (x : UUID)
    (acc : List UUID) : List.Perm (insertSift less x acc) (x :: acc) := by
  induction acc with
  | nil => simp [insertSift]
  | cons e rest ih =>
    simp only [insertSift]
    by_cases h : less x e = true
    · rw [if_pos h]
      exact (ih.cons e).trans (List.Perm.swap x e rest)
    · rw [if_neg h]

theorem foldl_insertSift_perm (less : UUID → UUID → Bool) :
    ∀ (l acc : List UUID),
      List.Perm (l.foldl (fun acc x => insertSift less x acc) acc) (l ++ acc) := by
  intro l
  induction l with
  | nil => intro acc; simp
  | cons y ys ih =>
    intro acc
    simp only [List.foldl_cons, List.cons_append]
    exact ((ih (insertSift less y acc)).trans
      (List.Perm.append_left ys (insertSift_perm less y acc))).trans
      List.perm_middle

theorem goSort_perm (less : UUID → UUID → Bool) (l : List UUID) :
    List.Perm (goSort less l) l := by
  unfold goSort
  exact (List.reverse_perm _).trans (by simpa using foldl_insertSift_perm less l [])

theorem mem_uniqueUUIDList (a : UUID) (ids : List UUID) (h : a ∈ ids) :
    a ∈ uniqueUUIDList ids :=
  ((goSort_perm goLess (dedupFirst ids)).mem_iff).mpr (mem_dedupFirst a ids h)

/-! Lemmas about the release loop of FinishJob. -/

theorem releaseDependants_fst (db : Store) :
    ∀ (ds : List UUID) (p : List (String × List UUID)),
      (releaseDependants db ds p).1 = .ok () ∨
      (releaseDependants db ds p).1 = .error .notExist ∨
      (releaseDependants db ds p).1 = .error .wouldBlock := by
  intro ds
  induction ds with
  | nil => intro p; exact Or.inl rfl
  | cons d rest ih =>
    intro p
    simp only [releaseDependants]
    cases hr : readJob db d with
    | error e =>
      have he := readJob_error db d e hr
      subst he
      simp [hr]
    | ok dep =>
      simp only
      cases hc : countFinishedJobs db dep.dependencies with
      | error e =>
        have he := countFinishedJobs_error db _ e hc
        subst he
        simp [hr, hc]
      | ok n =>
        simp only [hr, hc]
        by_cases hn : n = dep.dependencies.length
        · rw [if_pos hn]
          cases hp : pushChan p dep.jobType dep.id with
          | some p2 => exact ih p2
          | none => simp
        · rw [if_neg hn]
          exact ih p

theorem releaseDependants_no_block (db : Store) :
    ∀ (ds : List UUID) (p : List (String × List UUID)),
      (∀ t, (lookupChan p t).length + ds.length ≤ chanCap) →
      (releaseDependants db ds p).1 ≠ .error .wouldBlock := by
  intro ds
  induction ds with
  | nil => intro p _ h; cases h
  | cons d rest ih =>
    intro p hcap
    simp only [releaseDependants]
    cases hr : readJob db d with
    | error e =>
      have he := readJob_error db d e hr
      subst he
      simp [hr]
    | ok dep =>
      simp only
      cases hc : countFinishedJobs db dep.dependencies with
      | error e =>
        have he := countFinishedJobs_error db _ e hc
        subst he
        simp [hr, hc]
      | ok n =>
        simp only [hr, hc]
        by_cases hn : n = dep.dependencies.length
        · rw [if_pos hn]
          have hlt : (lookupChan p dep.jobType).length < chanCap := by
            have := hcap dep.jobType
            simp [List.length_cons] at this
            omega
          rw [pushChan_of_lt p dep.jobType dep.id hlt]
          apply ih
          intro t
          by_cases ht : t = dep.jobType
          · subst ht
            rw [lookupChan_setChan_self]
            have := hcap dep.jobType
            simp [List.length_append, List.length_cons] at this ⊢
            omega
          · rw [lookupChan_setChan_other _ _ _ _ ht]
            have := hcap t
            simp [List.length_cons] at this ⊢
            omega
        · rw [if_neg hn]
          apply ih
          intro t
          have := hcap t
          simp [List.length_cons] at this ⊢
          omega

/-! Lemmas about the public operations. -/

theorem enqueue_writefail (st : QState) (newId : UUID) (t args : String)
    (deps : List UUID) (now : Nat) :
    (enqueue st newId t args deps now false).2 = st := by
  unfold enqueue
  cases h : countFinishedJobs st.db (uniqueUUIDList deps) with
  | error e => simp [h]
  | ok n => simp [h]

theorem finishJob_writefail (st : QState) (id : UUID) (result : String)
    (now : Nat) :
    (finishJob st id result now false).2 = st := by
  unfold finishJob
  cases hr : readJob st.db id with
  | error e => simp [hr]
  | ok j =>
    simp only
    by_cases hc : j.startedAt = 0 ∨ j.finishedAt ≠ 0
    · rw [if_pos hc]
    · rw [if_neg hc]
      simp

theorem dequeue_pop_ok (st : QState) (t : String) (id : UUID)
    (rest : List UUID) (j : Job) (now : Nat)
    (hchan : lookupChan st.pending t = id :: rest)
    (hread : storeRead st.db id = some j) :
    dequeue st [t] now true =
      (.ok id,
       { st with
           pending := setChan st.pending t rest,
           db := storeWrite st.db { j with startedAt := now } }) := by
  unfold dequeue
  simp [List.find?, hchan, readJob, hread]

theorem dequeue_pop_storage (st : QState) (t : String) (id : UUID)
    (rest : List UUID) (j : Job) (now : Nat)
    (hchan : lookupChan st.pending t = id :: rest)
    (hread : storeRead st.db id = some j) :
    dequeue st [t] now false =
      (.error .storage, { st with pending := setChan st.pending t rest }) := by
  unfold dequeue
  simp [List.find?, hchan, readJob, hread]

theorem newQueueGo_bound (db : Store) :
    ∀ (ids : List UUID) (st st' : QState),
      (∀ t, (lookupChan st.pending t).length ≤ chanCap) →
      newQueueGo db ids st = .ok st' →
      ∀ t, (lookupChan st'.pending t).length ≤ chanCap := by
  intro ids
  induction ids with
  | nil =>
    intro st st' hb h
    simp only [newQueueGo, Except.ok.injEq] at h
    subst h
    exact hb
  | cons id rest ih =>
    intro st st' hb h
    simp only [newQueueGo] at h
    cases hr : readJob db id with
    | error e => rw [hr] at h; cases h
    | ok j =>
      rw [hr] at h
      simp only at h
      by_cases hs : j.startedAt = 0
      · rw [if_pos hs] at h
        exact ih st st' hb h
      · rw [if_neg hs] at h
        cases hc : countFinishedJobs db j.dependencies with
        | error e => rw [hc] at h; cases h
        | ok n =>
          rw [hc] at h
          simp only at h
          by_cases hn : n = j.dependencies.length
          · rw [if_pos hn] at h
            cases hp : pushChan st.pending j.jobType j.id with
            | some p =>
              rw [hp] at h
              obtain ⟨hself, hlt, hother⟩ := pushChan_some _ _ _ _ hp
              refine ih _ _ ?_ h
              intro t
              by_cases ht : t = j.jobType
              · subst ht
                simp only [hself, List.length_append, List.length_singleton]
                omega
              · simp only [hother t ht]
                exact hb t
            | none => rw [hp] at h; cases h
          · rw [if_neg hn] at h
            refine ih _ _ ?_ h
            intro t
            simpa using hb t

theorem dequeueSeq_eq (t : String) (now : Nat) :
    ∀ (l : List UUID) (st : QState),
      lookupChan st.pending t = l →
      (∀ id ∈ l, (storeRead st.db id).isSome = true) →
      dequeueSeq st t now l.length = l := by
  intro l
  induction l with
  | nil =>
    intro st _ _
    simp [dequeueSeq]
  | cons id rest ih =>
    intro st hchan hread
    have hid := hread id (List.mem_cons_self id rest)
    obtain ⟨j, hj⟩ := Option.isSome_iff_exists.mp hid
    have hdq := dequeue_pop_ok st t id rest j now hchan hj
    simp only [List.length_cons, dequeueSeq, hdq]
    refine congrArg (fun xs => id :: xs) ?_
    apply ih
    · exact lookupChan_setChan_self ..
    · intro id2 hid2
      simp only [storeRead_storeWrite]
      by_cases he : id2 = j.id
      · simp [he]
      · simp only [he, if_neg he]
        exact hread id2 (List.mem_cons_of_mem id hid2)

theorem releaseDependants_ne_notRunning (db : Store) (ds : List UUID)
    (p : List (String × List UUID)) :
    (releaseDependants db ds p).1 ≠ .error .notRunning := by
  rcases releaseDependants_fst db ds p with h | h | h <;> rw [h] <;> simp

/-! The claim theorems. -/

/-- C1: the claim fails on the code.  Recovery does the opposite of the
claim: `New` skips jobs whose started_at is UNSET.  Over a directory whose
only record is job A with started_at unset, finished_at unset and no
dependencies, the new queue's pending channel for A's type is empty, and a
subsequent Dequeue accepting A's type blocks instead of returning A. -/
theorem C1_recovery_skips_never_started :
    newQueue [jobA] = .ok { db := [jobA], pending := [], dependants := [] } ∧
    (dequeue { db := [jobA], pending := [], dependants := [] } ["build"] 2
        true).1 = .error .wouldBlock :=
  ⟨rfl, rfl⟩

/-- C2: the claim fails on the code.  Enqueue A, Dequeue A (started_at is
stamped), then construct a new queue over the same directory: because
recovery re-enqueues exactly the jobs whose started_at is set, the second
queue's Dequeue returns A again — the same id is returned by two
successful Dequeues across a restart with no started_at ever cleared. -/
theorem C2_id_dequeued_twice_across_restart :
    (dequeue stA ["build"] 2 true).1 = .ok idA ∧
    (newQueue stADequeued.db).map
        (fun st => (dequeue st ["build"] 3 true).1) = .ok (.ok idA) :=
  ⟨rfl, rfl⟩

/-- C3: the claim fails on the code.  The comparison closure given to
sort.Slice answers true in both directions on uuidU and uuidV (it lacks
the greater-byte early return), so it is not an ordering and the sorted
output depends on the order the ids leave the deduplication map: the two
dependency lists equal as sets persist as different lists. -/
theorem C3_dependency_order_not_canonical :
    goLess uuidU uuidV = true ∧ goLess uuidV uuidU = true ∧
    uniqueUUIDList [uuidU, uuidV] = [uuidV, uuidU] ∧
    uniqueUUIDList [uuidV, uuidU] = [uuidU, uuidV] := by
  refine ⟨rfl, rfl, ?_, ?_⟩ <;> rfl

set_option maxRecDepth 100000 in
/-- C4: counterexample.  FinishJob does block waiting for capacity: with
101 jobs of type "t" all depending on A, finishing A publishes the
dependants into the capacity-100 channel for "t" and the 101st send
blocks, as no consumer is draining the channel. -/
theorem C4_finish_blocks_at_capacity :
    (finishJob fanOutSt idA "ok" 3 true).1 = .error .wouldBlock := rfl

set_option maxRecDepth 100000 in
/-- C10: counterexample.  Construction does not terminate for every
parseable store: recovery over 101 records that it publishes to the same
type's channel blocks forever on the 101st send, because the channel
capacity is 100 and no consumer can exist while New runs. -/
theorem C10_new_blocks_over_capacity :
    newQueue fanStore = .error .wouldBlock := rfl

/-- C9: confirmed.  Enqueue A, enqueue B with dependencies [A, A, A]: B's
persisted dependency list is just [A] (length 1), and after dequeuing A a
single Finish of A publishes B to the pending channel of B's type. -/
theorem C9_duplicate_dependencies_coalesce :
    (enqueue (enqueue emptyQ idA "a" "null" [] 1 true).2 idB "b" "null"
        [idA, idA, idA] 2 true).1 = .ok idB ∧
    (storeRead c9StB.db idB).map (fun j => j.dependencies) = some [idA] ∧
    (dequeue c9StB ["a"] 3 true).1 = .ok idA ∧
    (finishJob c9StC idA "ok" 4 true).1 = .ok () ∧
    lookupChan ((finishJob c9StC idA "ok" 4 true).2).pending "b" = [idB] :=
  ⟨rfl, rfl, rfl, rfl, rfl⟩

/-- C5: counterexample.  A failed persist during Dequeue does not leave
the indices untouched: job A sits in the pending channel for "build",
Dequeue with a failing write returns StorageFailure, and afterwards the
channel no longer contains A — the receive that removed it preceded the
write and is not undone. -/
theorem C5_dequeue_write_failure_changes_pending :
    lookupChan stA.pending "build" = [idA] ∧
    (dequeue stA ["build"] 2 false).1 = .error .storage ∧
    lookupChan ((dequeue stA ["build"] 2 false).2).pending "build" = [] :=
  ⟨rfl, rfl, rfl⟩

/-- C5 (amended): on a StorageFailure during Enqueue or during Finish's
write of the finished record the whole state, indices included, is as
before the operation; a Dequeue whose persist of the started_at-stamped
record fails, however, has already removed the id from its pending
channel and does not restore it. -/
theorem C5_amended_indices_on_storage_failure :
    (∀ st newId t args deps now,
        (enqueue st newId t args deps now false).2 = st) ∧
    (∀ st id result now,
        (finishJob st id result now false).2 = st) ∧
    (∀ st t id rest now j,
        lookupChan st.pending t = id :: rest →
        storeRead st.db id = some j →
        dequeue st [t] now false =
          (.error .storage, { st with pending := setChan st.pending t rest })) :=
  ⟨enqueue_writefail, finishJob_writefail,
   fun st t id rest now j h1 h2 => dequeue_pop_storage st t id rest j now h1 h2⟩

/-- C5 (witness): the amended statement applied to the concrete state
with A pending. -/
theorem C5_amended_witness :
    lookupChan stA.pending "build" = [idA] ∧
    storeRead stA.db idA = some jobA ∧
    dequeue stA ["build"] 2 false =
      (.error .storage, { stA with pending := setChan stA.pending "build" [] }) :=
  ⟨rfl, rfl,
   C5_amended_indices_on_storage_failure.2.2 stA "build" idA [] 2 jobA rfl rfl⟩

/-- C6: confirmed.  Enqueue with a dependency that has no persisted
record fails with the unknown-dependency error (ErrNotExist in the code)
and leaves the whole state unchanged — in particular no record is
created; and when the persist of the new record fails, the pending
channels and the dependant index are unchanged. -/
theorem C6_unknown_dependency_no_record :
    (∀ st newId t args deps now w d, d ∈ deps → storeRead st.db d = none →
        enqueue st newId t args deps now w = (.error .notExist, st)) ∧
    (∀ st newId t args deps now,
        ((enqueue st newId t args deps now false).2).pending = st.pending ∧
        ((enqueue st newId t args deps now false).2).dependants =
          st.dependants) := by
  constructor
  · intro st newId t args deps now w d hd hm
    have hcnt : countFinishedJobs st.db (uniqueUUIDList deps) =
        .error .notExist :=
      countFinishedJobs_error_of_missing st.db _ d
        (mem_uniqueUUIDList d deps hd) hm
    unfold enqueue
    simp [hcnt]
  · intro st newId t args deps now
    rw [enqueue_writefail]
    exact ⟨rfl, rfl⟩

/-- C6 (witness): scenario S3, enqueueing against the all-zero uuid on a
fresh queue. -/
theorem C6_witness :
    idZero ∈ [idZero] ∧ storeRead emptyQ.db idZero = none ∧
    enqueue emptyQ idB "osbuild" "null" [idZero] 1 true =
      (.error .notExist, emptyQ) :=
  ⟨List.mem_singleton.mpr rfl, rfl,
   C6_unknown_dependency_no_record.1 emptyQ idB "osbuild" "null" [idZero] 1
     true idZero (List.mem_singleton.mpr rfl) rfl⟩

/-- C7: confirmed.  Finish on an id with no record fails with UnknownJob
(ErrNotExist) leaving the state unchanged; it fails with NotRunning
exactly when started_at is unset or finished_at is already set, again
leaving the state unchanged; and when the record is running it never
fails with NotRunning. -/
theorem C7_finish_error_cases :
    (∀ st id result now w, storeRead st.db id = none →
        finishJob st id result now w = (.error .notExist, st)) ∧
    (∀ st id result now w j, storeRead st.db id = some j →
        j.startedAt = 0 ∨ j.finishedAt ≠ 0 →
        finishJob st id result now w = (.error .notRunning, st)) ∧
    (∀ st id result now w j, storeRead st.db id = some j →
        j.startedAt ≠ 0 → j.finishedAt = 0 →
        (finishJob st id result now w).1 ≠ .error .notRunning) := by
  refine ⟨?_, ?_, ?_⟩
  · intro st id result now w hm
    unfold finishJob
    simp [readJob, hm]
  · intro st id result now w j hj hcond
    unfold finishJob
    simp only [readJob, hj]
    rw [if_pos hcond]
  · intro st id result now w j hj hs hf
    unfold finishJob
    simp only [readJob, hj]
    have hcond : ¬ (j.startedAt = 0 ∨ j.finishedAt ≠ 0) := by
      push_neg
      exact ⟨hs, hf⟩
    rw [if_neg hcond]
    cases w with
    | false => simp
    | true =>
      simp only [if_pos]
      have hnr := releaseDependants_ne_notRunning
        (storeWrite st.db { j with finishedAt := now, result := some result })
        (lookupDeps st.dependants id) st.pending
      rcases hrel : releaseDependants
          (storeWrite st.db { j with finishedAt := now, result := some result })
          (lookupDeps st.dependants id) st.pending with ⟨fst, p2⟩
      rw [hrel] at hnr
      cases fst with
      | error e => simpa using hnr
      | ok u => simp

/-- C7 (witness): the error cases evaluated on the state with the
never-started record A and the absent id B. -/
theorem C7_witness :
    storeRead stA.db idA = some jobA ∧
    (jobA.startedAt = 0 ∨ jobA.finishedAt ≠ 0) ∧
    finishJob stA idA "r" 9 true = (.error .notRunning, stA) ∧
    storeRead stA.db idB = none ∧
    finishJob stA idB "r" 9 true = (.error .notExist, stA) :=
  ⟨rfl, Or.inl rfl,
   C7_finish_error_cases.2.1 stA idA "r" 9 true jobA rfl (Or.inl rfl),
   rfl,
   C7_finish_error_cases.1 stA idB "r" 9 true rfl⟩

/-- C8: confirmed.  Publication appends to the type's channel and a
single consumer of one type drains the channel from the front: for any
state whose channel for type t holds the ids l (each with a persisted
record), repeated Dequeue of t alone returns exactly l in order, so ids
of one type are observed in the order they became pending. -/
theorem C8_fifo_within_type :
    (∀ p t id p2, pushChan p t id = some p2 →
        lookupChan p2 t = lookupChan p t ++ [id]) ∧
    (∀ l st t now, lookupChan st.pending t = l →
        (∀ id ∈ l, (storeRead st.db id).isSome = true) →
        dequeueSeq st t now l.length = l) :=
  ⟨fun p t id p2 h => (pushChan_some p p2 t id h).1,
   fun l st t now h1 h2 => dequeueSeq_eq t now l st h1 h2⟩

/-- C8 (witness): A then B enqueued with type "t" are dequeued as A then
B. -/
theorem C8_witness :
    lookupChan stFifo.pending "t" = [idA, idB] ∧
    (∀ id ∈ [idA, idB], (storeRead stFifo.db id).isSome = true) ∧
    dequeueSeq stFifo "t" 5 [idA, idB].length = [idA, idB] :=
  ⟨rfl, by decide,
   C8_fifo_within_type.2 [idA, idB] stFifo "t" 5 rfl (by decide)⟩

/-- C4 (amended): JobStatus and the failure paths of Finish are bounded,
but Finish may block waiting for channel capacity; it cannot block when
every type's channel has room for all the dependants the finished job
releases. -/
theorem C4_amended_finish_bounded_unless_capacity :
    ∀ st id result now,
      (∀ t, (lookupChan st.pending t).length +
          (lookupDeps st.dependants id).length ≤ chanCap) →
      (finishJob st id result now true).1 ≠ .error .wouldBlock := by
  intro st id result now hcap
  unfold finishJob
  cases hr : readJob st.db id with
  | error e =>
    have he := readJob_error st.db id e hr
    subst he
    simp [hr]
  | ok j =>
    simp only
    by_cases hcond : j.startedAt = 0 ∨ j.finishedAt ≠ 0
    · rw [if_pos hcond]
      simp
    · rw [if_neg hcond]
      simp only [if_pos]
      have hnb := releaseDependants_no_block
        (storeWrite st.db { j with finishedAt := now, result := some result })
        (lookupDeps st.dependants id) st.pending hcap
      rcases hrel : releaseDependants
          (storeWrite st.db { j with finishedAt := now, result := some result })
          (lookupDeps st.dependants id) st.pending with ⟨fst, p2⟩
      rw [hrel] at hnb
      cases fst with
      | error e => simpa using hnb
      | ok u => simp

/-- C4 (witness): finishing A with one waiting dependant and empty
channels does not block. -/
theorem C4_amended_witness :
    (∀ t, (lookupChan smallFinishSt.pending t).length +
        (lookupDeps smallFinishSt.dependants idA).length ≤ chanCap) ∧
    (finishJob smallFinishSt idA "ok" 3 true).1 ≠ .error .wouldBlock := by
  have hcap : ∀ t, (lookupChan smallFinishSt.pending t).length +
      (lookupDeps smallFinishSt.dependants idA).length ≤ chanCap := by
    intro t
    have hp : smallFinishSt.pending = [("build", [])] := rfl
    have hd : lookupDeps smallFinishSt.dependants idA = [idB] := rfl
    rw [hp, hd]
    by_cases h : "build" = t
    · simp [lookupChan, h, chanCap]
    · simp [lookupChan, h, chanCap]
  exact ⟨hcap,
    C4_amended_finish_bounded_unless_capacity smallFinishSt idA "ok" 3 hcap⟩

/-- C10 (amended): whenever queue construction completes, every per-type
pending channel holds at most 100 ids — recovery that would publish more
than 100 jobs of one type blocks forever instead (see the counterexample
theorem for C10). -/
theorem C10_amended_new_pending_bounded :
    ∀ (records : Store) (st : QState), newQueue records = .ok st →
      ∀ t, (lookupChan st.pending t).length ≤ chanCap := by
  intro records st h t
  exact newQueueGo_bound records (records.map Job.id) _ st
    (fun t2 => by simp [lookupChan]) h t

/-- C10 (witness): construction over a single dispatched record completes
with that id pending, within the capacity bound. -/
theorem C10_amended_witness :
    newQueue [fanRec 0] =
      .ok { db := [fanRec 0], pending := [("t", [fanId 0])],
            dependants := [] } ∧
    (lookupChan (QState.mk [fanRec 0] [("t", [fanId 0])] []).pending
        "t").length ≤ chanCap :=
  ⟨rfl, C10_amended_new_pending_bounded [fanRec 0] _ rfl "t"⟩

end FsJobQueue
